import Mathlib

set_option maxRecDepth 40000

/-!
# Verification of `blctl` (`src/main.rs`)

Shallow embedding of the `blctl` backlight-control daemon.  The daemon's
`BacklightController` exposes five operations (`increase`, `decrease`, `set`,
`get`, `max`) over two kernel interface files (current brightness and maximum
brightness).  Each operation reads one or both files as trimmed decimal text
parsed as `u32`, computes a new value, and optionally writes it back as
decimal text.

The embedding models:
* file contents as `String`s held in a `KState` record (one field per file);
* Rust `str::trim` / `str::parse::<u32>` / `u32::to_string` as the string
  functions `rustTrim` / `parseU32` / `natToString`;
* the `f32` percentage arithmetic of `increase`/`decrease` exactly, by
  round-to-nearest-even IEEE binary32 rounding on exact rationals
  represented as numerator/denominator pairs of naturals (all values that
  arise are nonnegative and in the normal range of `f32`);
* a panicking `.expect(...)` (process termination) as an `Option` `none`
  result: every such panic in the source happens before the single
  `ki_write` call of the operation, so a `none` result carries no
  successor state and hence no write;
* `u32` addition in release mode, i.e. wrapping modulo `2 ^ 32`.
-/

namespace Blctl

/-- Whitespace test used by trimming. Models Rust `char::is_whitespace`
(restricted to the ASCII whitespace that can occur in sysfs files). -/
def isWs (c : Char) : Bool := c.isWhitespace

/-- Model of Rust `str::trim` (used at `src/main.rs:29,73,80` on reads and
`src/main.rs:187` on writes): drop whitespace from both ends. -/
def rustTrim (s : String) : String :=
  ⟨((s.data.dropWhile isWs).reverse.dropWhile isWs).reverse⟩

/-- Digit-accumulation loop of Rust `u32::from_str`: each step multiplies the
accumulator by 10 and adds the digit, failing on a non-digit character or on
`u32` overflow (Rust's `checked_mul`/`checked_add`). -/
def goDigits : List Char → ℕ → Option ℕ
  | [], acc => some acc
  | c :: cs, acc =>
    if c.isDigit then
      let acc' := acc * 10 + (c.toNat - 48)
      if acc' < 2 ^ 32 then goDigits cs acc' else none
    else none

/-- The digits part of a parsed `u32` literal must be nonempty. -/
def parseDigits (cs : List Char) : Option ℕ :=
  if cs = [] then none else goDigits cs 0

/-- Model of Rust `str::parse::<u32>` (`src/main.rs:30,39,74,81,117,129,142`):
an optional leading `+` followed by one or more ASCII digits, with overflow
checking; anything else (including the empty string) fails. -/
def parseU32 (s : String) : Option ℕ :=
  match s.data with
  | [] => none
  | c :: cs => if c = '+' then parseDigits cs else parseDigits (c :: cs)

/-- Little-endian decimal digit characters of `n`, fuel-based so that it
reduces by kernel computation. -/
def toDecAux : ℕ → ℕ → List Char
  | 0, _ => []
  | f + 1, n =>
    if n < 10 then [Nat.digitChar n]
    else Nat.digitChar (n % 10) :: toDecAux f (n / 10)

/-- Model of Rust `u32::to_string` (`src/main.rs:56,99,119`): the decimal
representation of `n`. -/
def natToString (n : ℕ) : String :=
  ⟨(toDecAux (n + 1) n).reverse⟩

/-- The two kernel interface files of the controller: the state visible to
`ki_read`/`ki_write` is the pair of their contents. -/
structure KState where
  brightness : String
  maxBrightness : String
deriving DecidableEq

/-- Model of `ki_read` (`src/main.rs:149`) on the brightness file. -/
def kiReadBrightness (st : KState) : String := st.brightness

/-- Model of `ki_read` (`src/main.rs:149`) on the max-brightness file. -/
def kiReadMax (st : KState) : String := st.maxBrightness

/-- Model of `ki_write` (`src/main.rs:175`): the file content becomes the
trimmed data (`data.trim().as_bytes()` is what is written, `src/main.rs:187`).
Every `ki_write` call in the source targets the brightness file. -/
def kiWriteBrightness (st : KState) (data : String) : KState :=
  { st with brightness := rustTrim data }

/-- Fuel-based floor of the base-2 logarithm (`lg fuel n = ⌊log₂ n⌋` whenever
`n < 2 ^ fuel`); fuel keeps the recursion structural so the kernel can
evaluate it. -/
def lg : ℕ → ℕ → ℕ
  | 0, _ => 0
  | f + 1, n => if 2 ≤ n then lg f (n / 2) + 1 else 0

/-- Round the rational `num / den` (with `den > 0`) to the nearest integer,
ties to even: the rounding rule of IEEE-754 default arithmetic. -/
def rne (num den : ℕ) : ℕ :=
  let q := num / den
  let r := num % den
  if 2 * r < den then q
  else if den < 2 * r then q + 1
  else if q % 2 = 0 then q else q + 1

/-- Round the nonnegative rational `n / d` to the nearest IEEE binary32
value (round-to-nearest, ties to even), returned exactly as a pair
`(numerator, denominator)` with power-of-two denominator.  `e` is the floor
base-2 logarithm of the value, computed after scaling by `2 ^ 200` so that
negative exponents down to `-200` are handled; the significand is then
rounded to 24 bits at exponent `e`.  All values arising from the program are
in the normal range of `f32` (or exactly zero), so neither subnormals nor
overflow to infinity need representing. -/
def roundF32 (n d : ℕ) : ℕ × ℕ :=
  if n = 0 then (0, 1)
  else
    let e : ℤ := (lg 300 (n * 2 ^ 200 / d) : ℤ) - 200
    if e ≤ 23 then
      let den := 2 ^ (23 - e).toNat
      (rne (n * den) d, den)
    else
      let s := 2 ^ (e - 23).toNat
      (rne n (d * s) * s, 1)

/-- Rust `x as f32` for `x : u32` (`src/main.rs:45,46`): round the integer to
the nearest binary32 value. -/
def f32OfNat (x : ℕ) : ℕ × ℕ := roundF32 x 1

/-- Rust `v as u32` for a nonnegative finite `f32` value `v = p.1 / p.2`
(`src/main.rs:48,91,94,97`): truncate toward zero, saturating at
`u32::MAX`. -/
def f32ToU32 (p : ℕ × ℕ) : ℕ :=
  let v := p.1 / p.2
  if v < 2 ^ 32 then v else 2 ^ 32 - 1

/-- The `u32` delta computed identically by `increase` (`src/main.rs:45-48`)
and `decrease` (`src/main.rs:88-91`):
`(((max as f32) / 100f32) * (amount as f32)) as u32`,
with each `f32` operation modelled as exact rational arithmetic followed by
binary32 rounding (`100f32` is exactly `100`). -/
def deltaF32 (m amount : ℕ) : ℕ :=
  let mf := f32OfNat m
  let fraction := roundF32 mf.1 (mf.2 * 100)
  let af := f32OfNat amount
  let product := roundF32 (fraction.1 * af.1) (fraction.2 * af.2)
  f32ToU32 product

/-- The value `increase` writes (`src/main.rs:50-52`):
`current + actual_amount as u32` as wrapping `u32` addition (release-mode
semantics), then clamped down to `max`. -/
def increaseValue (current m amount : ℕ) : ℕ :=
  let newCurrent := (current + deltaF32 m amount) % 2 ^ 32
  if newCurrent > m then m else newCurrent

/-- The value `decrease` writes (`src/main.rs:93-97`): `current` is first
raised to the delta if it is below it (the explicit `u32` underflow guard),
then the delta is subtracted. -/
def decreaseValue (current m amount : ℕ) : ℕ :=
  let d := deltaF32 m amount
  let c := if current < d then d else current
  c - d

/-- The value `set` writes (`src/main.rs:115-117`): the argument clamped down
to `max`. -/
def setValue (value m : ℕ) : ℕ :=
  if value > m then m else value

/-- Model of `increase` (`src/main.rs:24-58`): parse the brightness file,
parse the max-brightness file, then write the computed value.  `none` models
the process dying in `.expect` before the write. -/
def increase (st : KState) (amount : ℕ) : Option KState :=
  match parseU32 (rustTrim (kiReadBrightness st)) with
  | none => none
  | some current =>
    match parseU32 (rustTrim (kiReadMax st)) with
    | none => none
    | some m =>
      some (kiWriteBrightness st (natToString (increaseValue current m amount)))

/-- Model of `decrease` (`src/main.rs:67-101`): same reads as `increase`,
then write the guarded difference. -/
def decrease (st : KState) (amount : ℕ) : Option KState :=
  match parseU32 (rustTrim (kiReadBrightness st)) with
  | none => none
  | some current =>
    match parseU32 (rustTrim (kiReadMax st)) with
    | none => none
    | some m =>
      some (kiWriteBrightness st (natToString (decreaseValue current m amount)))

/-- Model of `set` (`src/main.rs:111-120`): read only the max-brightness file
(via `self.max()`), clamp the argument, write it. -/
def set (st : KState) (value : ℕ) : Option KState :=
  match parseU32 (rustTrim (kiReadMax st)) with
  | none => none
  | some m => some (kiWriteBrightness st (natToString (setValue value m)))

/-- Model of `get` (`src/main.rs:123-133`): parse the brightness file and
return its value; the state is returned unchanged because the source
performs no write. -/
def get (st : KState) : Option (KState × ℕ) :=
  match parseU32 (rustTrim (kiReadBrightness st)) with
  | none => none
  | some v => some (st, v)

/-- Model of `max` (`src/main.rs:136-146`): parse the max-brightness file and
return its value; the state is returned unchanged because the source
performs no write. -/
def max (st : KState) : Option (KState × ℕ) :=
  match parseU32 (rustTrim (kiReadMax st)) with
  | none => none
  | some v => some (st, v)

/-! ## String lemmas: parsing is a left inverse of rendering -/

/-- For an actual digit `d < 10`, `Nat.digitChar d` is an ASCII digit
character whose numeric value is `d`; it is neither `+` nor whitespace. -/
lemma digitChar_spec (d : ℕ) (hd : d < 10) :
    (Nat.digitChar d).isDigit = true ∧ (Nat.digitChar d).toNat - 48 = d ∧
    Nat.digitChar d ≠ '+' ∧ isWs (Nat.digitChar d) = false := by
  interval_cases d <;> exact ⟨by decide, by decide, by decide, by decide⟩

/-- Decimal accumulation never decreases the accumulator. -/
lemma foldl_step_le (L : List ℕ) :
    ∀ acc : ℕ, acc ≤ L.foldl (fun a d => a * 10 + d) acc := by
  induction L with
  | nil => intro acc; simp
  | cons d L ih =>
    intro acc
    calc acc ≤ acc * 10 + d := by omega
    _ ≤ _ := by simpa using ih (acc * 10 + d)

/-- `goDigits` on rendered digits computes the decimal fold, provided the
final value fits in a `u32` (every intermediate accumulator is then below
the overflow check as well). -/
lemma goDigits_map (L : List ℕ) :
    ∀ acc : ℕ, (∀ d ∈ L, d < 10) →
      L.foldl (fun a d => a * 10 + d) acc < 2 ^ 32 →
      goDigits (L.map Nat.digitChar) acc =
        some (L.foldl (fun a d => a * 10 + d) acc) := by
  induction L with
  | nil => intro acc _ _; rfl
  | cons d L ih =>
    intro acc hd hlt
    have hd10 : d < 10 := hd d (by simp)
    obtain ⟨h1, h2, _, _⟩ := digitChar_spec d hd10
    have hfold : (d :: L).foldl (fun a d => a * 10 + d) acc =
        L.foldl (fun a d => a * 10 + d) (acc * 10 + d) := by simp
    have hacc : acc * 10 + d < 2 ^ 32 := by
      have := foldl_step_le L (acc * 10 + d)
      rw [hfold] at hlt
      omega
    rw [List.map_cons]
    show goDigits (Nat.digitChar d :: L.map Nat.digitChar) acc = _
    rw [goDigits, h1]
    simp only [h2, if_true]
    rw [if_pos hacc, hfold]
    exact ih (acc * 10 + d) (fun x hx => hd x (by simp [hx])) (hfold ▸ hlt)

/-- The decimal fold over the reversed digit list of `n` recovers `n`. -/
lemma foldl_reverse_digits (n : ℕ) :
    (Nat.digits 10 n).reverse.foldl (fun a d => a * 10 + d) 0 = n := by
  rw [List.foldl_reverse]
  have : ∀ l : List ℕ, l.foldr (fun x y => y * 10 + x) 0 = Nat.ofDigits 10 l := by
    intro l
    induction l with
    | nil => simp [Nat.ofDigits_nil]
    | cons d l ih => simp [Nat.ofDigits_cons, ih]; ring
  rw [this, Nat.ofDigits_digits]

/-- `toDecAux` with enough fuel produces the little-endian decimal digit
characters of a positive number. -/
lemma toDecAux_eq (fuel : ℕ) :
    ∀ n : ℕ, n < fuel → 0 < n →
      toDecAux fuel n = (Nat.digits 10 n).map Nat.digitChar := by
  induction fuel with
  | zero => intro n hn; omega
  | succ f ih =>
    intro n hn hpos
    rw [toDecAux]
    rcases lt_or_le n 10 with h10 | h10
    · rw [if_pos h10]
      rw [Nat.digits_def' (by norm_num : (1:ℕ) < 10) hpos]
      have : n / 10 = 0 := by omega
      rw [this, Nat.digits_zero, Nat.mod_eq_of_lt h10]
      rfl
    · rw [if_neg (by omega)]
      rw [Nat.digits_def' (by norm_num : (1:ℕ) < 10) hpos]
      rw [List.map_cons]
      congr 1
      exact ih (n / 10) (by omega) (by omega)

/-- Every character produced by `toDecAux` is a decimal digit character. -/
lemma toDecAux_chars (fuel : ℕ) :
    ∀ n : ℕ, ∀ c ∈ toDecAux fuel n, ∃ d, d < 10 ∧ c = Nat.digitChar d := by
  induction fuel with
  | zero => intro n c hc; simp [toDecAux] at hc
  | succ f ih =>
    intro n c hc
    rw [toDecAux] at hc
    by_cases h10 : n < 10
    · rw [if_pos h10] at hc
      simp at hc
      exact ⟨n, h10, hc⟩
    · rw [if_neg h10] at hc
      rcases List.mem_cons.mp hc with h | h
      · exact ⟨n % 10, by omega, h⟩
      · exact ih (n / 10) c h

/-- The decimal rendering of `n` contains no whitespace, so Rust's `trim`
leaves it unchanged. -/
lemma rustTrim_natToString (n : ℕ) : rustTrim (natToString n) = natToString n := by
  have hnw : ∀ c ∈ (toDecAux (n + 1) n).reverse, isWs c = false := by
    intro c hc
    obtain ⟨d, hd, rfl⟩ := toDecAux_chars (n + 1) n c (List.mem_reverse.mp hc)
    exact (digitChar_spec d hd).2.2.2
  have hdrop : ∀ (l : List Char), (∀ c ∈ l, isWs c = false) →
      l.dropWhile isWs = l := by
    intro l hl
    cases l with
    | nil => rfl
    | cons c cs => simp [List.dropWhile, hl c (by simp)]
  show (⟨_⟩ : String) = _
  rw [natToString]
  congr 1
  show ((((toDecAux (n + 1) n).reverse.dropWhile isWs).reverse.dropWhile isWs).reverse) = _
  rw [hdrop _ hnw]
  rw [hdrop _ (by intro c hc; exact hnw c (List.mem_reverse.mp hc))]
  rw [List.reverse_reverse]

/-- Parsing inverts rendering: `parseU32 (natToString n) = some n` for any
`n` that fits in a `u32`. -/
lemma parseU32_natToString (n : ℕ) (h : n < 2 ^ 32) :
    parseU32 (natToString n) = some n := by
  rcases Nat.eq_zero_or_pos n with rfl | hpos
  · decide
  · have hchars : natToString n = ⟨((Nat.digits 10 n).reverse.map Nat.digitChar)⟩ := by
      rw [natToString, toDecAux_eq (n + 1) n (by omega) hpos, List.map_reverse]
    rw [hchars]
    have hne : Nat.digits 10 n ≠ [] := Nat.digits_ne_nil_iff_ne_zero.mpr (by omega)
    obtain ⟨d, ds, hds⟩ := List.exists_cons_of_ne_nil
      (fun hrev => hne (List.reverse_eq_nil_iff.mp hrev))
    have hmem : ∀ x ∈ (Nat.digits 10 n).reverse, x < 10 := by
      intro x hx
      exact Nat.digits_lt_base (by norm_num) (List.mem_reverse.mp hx)
    have hgo : goDigits ((Nat.digits 10 n).reverse.map Nat.digitChar) 0 = some n := by
      rw [goDigits_map _ 0 hmem (by rw [foldl_reverse_digits]; omega)]
      rw [foldl_reverse_digits]
    rw [hds] at hgo ⊢
    have hd10 : d < 10 := hmem d (by rw [hds]; simp)
    rw [List.map_cons] at hgo ⊢
    show parseU32 ⟨Nat.digitChar d :: ds.map Nat.digitChar⟩ = some n
    rw [parseU32]
    show (if Nat.digitChar d = '+' then parseDigits (ds.map Nat.digitChar)
      else parseDigits (Nat.digitChar d :: ds.map Nat.digitChar)) = some n
    rw [if_neg (digitChar_spec d hd10).2.2.1]
    rw [parseDigits, if_neg (by simp)]
    exact hgo

/-- Any successfully parsed value fits in a `u32` (the parser's overflow
check). -/
lemma parseU32_lt (s : String) (x : ℕ) (h : parseU32 s = some x) : x < 2 ^ 32 := by
  have hgo : ∀ (cs : List Char), ∀ acc y, acc < 2 ^ 32 →
      goDigits cs acc = some y → y < 2 ^ 32 := by
    intro cs
    induction cs with
    | nil =>
      intro acc y hacc hy
      rw [goDigits] at hy
      cases hy
      omega
    | cons c cs ih =>
      intro acc y hacc hy
      rw [goDigits] at hy
      by_cases hdig : c.isDigit
      · rw [if_pos hdig] at hy
        simp only at hy
        by_cases hlt : acc * 10 + (c.toNat - 48) < 2 ^ 32
        · rw [if_pos hlt] at hy
          exact ih _ y hlt hy
        · rw [if_neg hlt] at hy; cases hy
      · rw [if_neg hdig] at hy; cases hy
  have hpd : ∀ (cs : List Char), parseDigits cs = some x → x < 2 ^ 32 := by
    intro cs hcs
    rw [parseDigits] at hcs
    by_cases hnil : cs = []
    · rw [if_pos hnil] at hcs; cases hcs
    · rw [if_neg hnil] at hcs
      exact hgo cs 0 x (by norm_num) hcs
  rw [parseU32] at h
  rcases hdata : s.data with _ | ⟨c, cs⟩ <;> rw [hdata] at h
  · cases h
  · have h' : (if c = '+' then parseDigits cs else parseDigits (c :: cs)) = some x := h
    by_cases hplus : c = '+'
    · rw [if_pos hplus] at h'; exact hpd cs h'
    · rw [if_neg hplus] at h'; exact hpd (c :: cs) h'

/-! ## Operation inversion lemmas -/

/-- Writing a rendered number stores exactly its decimal text (the trim in
`ki_write` is a no-op on digit strings), and leaves the max file alone. -/
lemma kiWriteBrightness_natToString (st : KState) (w : ℕ) :
    kiWriteBrightness st (natToString w) =
      ⟨natToString w, st.maxBrightness⟩ := by
  rw [kiWriteBrightness, rustTrim_natToString]

/-- A successful `increase` call determines the two parses and the end
state. -/
lemma increase_some {st st' : KState} {a : ℕ} (h : increase st a = some st') :
    ∃ c m, parseU32 (rustTrim st.brightness) = some c ∧
      parseU32 (rustTrim st.maxBrightness) = some m ∧
      st' = ⟨natToString (increaseValue c m a), st.maxBrightness⟩ := by
  rw [increase, kiReadBrightness, kiReadMax] at h
  rcases hb : parseU32 (rustTrim st.brightness) with _ | c <;> rw [hb] at h
  · cases h
  · rcases hm : parseU32 (rustTrim st.maxBrightness) with _ | m <;> rw [hm] at h
    · cases h
    · refine ⟨c, m, rfl, rfl, ?_⟩
      cases h
      exact kiWriteBrightness_natToString st _

/-- A successful `decrease` call determines the two parses and the end
state. -/
lemma decrease_some {st st' : KState} {a : ℕ} (h : decrease st a = some st') :
    ∃ c m, parseU32 (rustTrim st.brightness) = some c ∧
      parseU32 (rustTrim st.maxBrightness) = some m ∧
      st' = ⟨natToString (decreaseValue c m a), st.maxBrightness⟩ := by
  rw [decrease, kiReadBrightness, kiReadMax] at h
  rcases hb : parseU32 (rustTrim st.brightness) with _ | c <;> rw [hb] at h
  · cases h
  · rcases hm : parseU32 (rustTrim st.maxBrightness) with _ | m <;> rw [hm] at h
    · cases h
    · refine ⟨c, m, rfl, rfl, ?_⟩
      cases h
      exact kiWriteBrightness_natToString st _

/-- A successful `set` call determines the max parse and the end state. -/
lemma set_some {st st' : KState} {v : ℕ} (h : set st v = some st') :
    ∃ m, parseU32 (rustTrim st.maxBrightness) = some m ∧
      st' = ⟨natToString (setValue v m), st.maxBrightness⟩ := by
  rw [set, kiReadMax] at h
  rcases hm : parseU32 (rustTrim st.maxBrightness) with _ | m <;> rw [hm] at h
  · cases h
  · refine ⟨m, rfl, ?_⟩
    cases h
    exact kiWriteBrightness_natToString st _

/-- A successful `get` call returns the parsed brightness and the unchanged
state. -/
lemma get_some {st st₁ : KState} {x : ℕ} (h : get st = some (st₁, x)) :
    st₁ = st ∧ parseU32 (rustTrim st.brightness) = some x := by
  rw [get, kiReadBrightness] at h
  rcases hb : parseU32 (rustTrim st.brightness) with _ | c <;> rw [hb] at h
  · cases h
  · cases h
    exact ⟨rfl, rfl⟩

/-- A successful `max` call returns the parsed maximum and the unchanged
state. -/
lemma max_some {st st₁ : KState} {x : ℕ} (h : max st = some (st₁, x)) :
    st₁ = st ∧ parseU32 (rustTrim st.maxBrightness) = some x := by
  rw [max, kiReadMax] at h
  rcases hm : parseU32 (rustTrim st.maxBrightness) with _ | m <;> rw [hm] at h
  · cases h
  · cases h
    exact ⟨rfl, rfl⟩

/-! ## Value-level lemmas -/

/-- The final clamp of `increase` bounds the written value by `max`. -/
lemma increaseValue_le (c m a : ℕ) : increaseValue c m a ≤ m ∨
    increaseValue c m a = (c + deltaF32 m a) % 2 ^ 32 := by
  simp only [increaseValue]
  split
  · exact Or.inl le_rfl
  · exact Or.inr rfl

/-- The written value of `increase` never exceeds `max`. -/
lemma increaseValue_le_max (c m a : ℕ) : increaseValue c m a ≤ m := by
  simp only [increaseValue, gt_iff_lt]
  split <;> omega

/-- Without `u32` overflow, `increase` computes the clamped sum. -/
lemma increaseValue_no_overflow (c m a : ℕ) (h : c + deltaF32 m a < 2 ^ 32) :
    increaseValue c m a =
      if m < c + deltaF32 m a then m else c + deltaF32 m a := by
  simp only [increaseValue, gt_iff_lt]
  rw [Nat.mod_eq_of_lt h]

/-- The written value of `decrease` never exceeds the current value. -/
lemma decreaseValue_le_current (c m a : ℕ) : decreaseValue c m a ≤ c := by
  simp only [decreaseValue]
  split <;> omega

/-- The underflow guard of `decrease` floors the result at `0`. -/
lemma decreaseValue_of_lt (c m a : ℕ) (h : c < deltaF32 m a) :
    decreaseValue c m a = 0 := by
  simp only [decreaseValue]
  rw [if_pos h]
  omega

/-- The written value of `set` never exceeds `max`. -/
lemma setValue_le (v m : ℕ) : setValue v m ≤ m := by
  simp only [setValue, gt_iff_lt]
  split <;> omega

/-- `set`'s clamp is `min`. -/
lemma setValue_eq_min (v m : ℕ) : setValue v m = min v m := by
  simp only [setValue, gt_iff_lt]
  split <;> omega

/-- `set` writes `max` when the argument exceeds it. -/
lemma setValue_of_gt (v m : ℕ) (h : m < v) : setValue v m = m := by
  simp only [setValue, gt_iff_lt]
  rw [if_pos h]

/-- `set` writes the argument when it is within range. -/
lemma setValue_of_le (v m : ℕ) (h : v ≤ m) : setValue v m = v := by
  simp only [setValue, gt_iff_lt]
  rw [if_neg (by omega)]

/-! ## Claims -/

/-- C1 (amended): after a successful `increase` or `set` call the brightness
file holds the decimal text of a value in `[0, max]`, where `max` is the
value parsed from the max-brightness file during that call; after a
successful `decrease` the same holds provided the value parsed from the
brightness file at the start of the call was itself at most `max`.  (The
original claim, which omits that proviso for `decrease`, is refuted by
`C1_counterexample`: `decrease` never clamps upward.) -/
theorem C1_clamped_write (st st₁ st₂ st₃ : KState) (a b v m : ℕ)
    (hm : parseU32 (rustTrim st.maxBrightness) = some m) :
    (increase st a = some st₁ →
      ∃ w, w ≤ m ∧ st₁.brightness = natToString w) ∧
    (set st v = some st₃ →
      ∃ w, w ≤ m ∧ st₃.brightness = natToString w) ∧
    (∀ c, parseU32 (rustTrim st.brightness) = some c → c ≤ m →
      decrease st b = some st₂ →
      ∃ w, w ≤ m ∧ st₂.brightness = natToString w) := by
  refine ⟨?_, ?_, ?_⟩
  · intro h
    obtain ⟨c, m', hb', hm', rfl⟩ := increase_some h
    rw [hm] at hm'
    obtain rfl := Option.some.inj hm'
    exact ⟨increaseValue c m a, increaseValue_le_max c m a, rfl⟩
  · intro h
    obtain ⟨m', hm', rfl⟩ := set_some h
    rw [hm] at hm'
    obtain rfl := Option.some.inj hm'
    exact ⟨setValue v m, setValue_le v m, rfl⟩
  · intro c hb hcm h
    obtain ⟨c', m', hb', hm', rfl⟩ := decrease_some h
    rw [hm] at hm'
    obtain rfl := Option.some.inj hm'
    rw [hb] at hb'
    obtain rfl := Option.some.inj hb'
    exact ⟨decreaseValue c m b,
      le_trans (decreaseValue_le_current c m b) hcm, rfl⟩

/-- C1 witness: on brightness `100`, max `255`, `increase 10` succeeds and
the stored value is bounded by `255`. -/
theorem C1_clamped_write_witness :
    ∃ w, w ≤ 255 ∧ (KState.mk "125" "255").brightness = natToString w :=
  (C1_clamped_write ⟨"100", "255"⟩ ⟨"125", "255"⟩ ⟨"0", "255"⟩ ⟨"255", "255"⟩
    10 50 300 255 (by decide)).1 (by decide)

/-- C1 counterexample: with `300` in the brightness file and `255` in the
max-brightness file (both parse), `decrease 0` completes successfully and
writes `300` back — a value strictly above `max = 255`, contradicting the
claimed `[0, max]` invariant for every successful call. -/
theorem C1_counterexample :
    parseU32 (rustTrim "300") = some 300 ∧
    parseU32 (rustTrim "255") = some 255 ∧
    deltaF32 255 0 = 0 ∧
    decreaseValue 300 255 0 = 300 ∧
    decrease ⟨"300", "255"⟩ 0 = some ⟨"300", "255"⟩ ∧
    ¬ (300 : ℕ) ≤ 255 := by decide

/-- C2 (amended): for every `max > 0`, `current ∈ [0, max]` and `amount`,
with `delta` the `u32` the code computes from the `f32` expression
`(max as f32 / 100f32) * amount as f32` (`deltaF32`), and provided the
`u32` addition `current + delta` does not overflow, a successful `increase`
writes a value in `[current, max]`, and the written value equals `max`
exactly when `current + delta ≥ max`.  (The original claim — which states
the threshold with the exact integer `⌊max * amount / 100⌋` in place of the
`f32`-computed `delta`, and has no overflow proviso — is refuted on both
counts by `C2_counterexample`.) -/
theorem C2_increase_range (st st' : KState) (c m a : ℕ)
    (hm0 : 0 < m) (hcm : c ≤ m)
    (hb : parseU32 (rustTrim st.brightness) = some c)
    (hmx : parseU32 (rustTrim st.maxBrightness) = some m)
    (hnof : c + deltaF32 m a < 2 ^ 32)
    (hi : increase st a = some st') :
    st'.brightness = natToString (increaseValue c m a) ∧
    c ≤ increaseValue c m a ∧ increaseValue c m a ≤ m ∧
    (increaseValue c m a = m ↔ m ≤ c + deltaF32 m a) := by
  obtain ⟨c', m', hb', hm', rfl⟩ := increase_some hi
  rw [hb] at hb'
  obtain rfl := Option.some.inj hb'
  rw [hmx] at hm'
  obtain rfl := Option.some.inj hm'
  refine ⟨rfl, ?_⟩
  rw [increaseValue_no_overflow c m a hnof]
  split <;> omega

/-- C2 witness: brightness `100`, max `255`, `increase 10` (delta `25`):
the written value `125` lies in `[100, 255]` and is below `max`. -/
theorem C2_increase_range_witness :
    (⟨"125", "255"⟩ : KState).brightness = natToString (increaseValue 100 255 10) ∧
    100 ≤ increaseValue 100 255 10 ∧ increaseValue 100 255 10 ≤ 255 ∧
    (increaseValue 100 255 10 = 255 ↔ 255 ≤ 100 + deltaF32 255 10) :=
  C2_increase_range ⟨"100", "255"⟩ ⟨"125", "255"⟩ 100 255 10
    (by decide) (by decide) (by decide) (by decide) (by decide) (by decide)

/-- C2 counterexample, both conjuncts with `max > 0` and `current ∈ [0, max]`.
First: `max = 16777217 = 2^24 + 1`, `current = 0`, `amount = 100`.  The exact
integer delta is `⌊16777217 * 100 / 100⌋ = 16777217`, so
`current + ⌊max/100*amount⌋ ≥ max` and the claim demands the written value
equal `max`; but the `f32` computation rounds (`16777217` is not an `f32`,
and the product rounds to `2^24`), the code adds only `16777216`, and
`16777216 < max` escapes the clamp, so `16777216` is written.  Second:
`max = current = 4294967295 = u32::MAX`, `amount = 100`: the delta saturates
to `4294967295`, the `u32` sum wraps to `4294967294 < current`, so the
written value is below `current` and not in `[current, max]`. -/
theorem C2_counterexample :
    (parseU32 (rustTrim "0") = some 0 ∧
      parseU32 (rustTrim "16777217") = some 16777217 ∧
      16777217 ≤ 0 + 16777217 * 100 / 100 ∧
      deltaF32 16777217 100 = 16777216 ∧
      increaseValue 0 16777217 100 = 16777216 ∧
      increase ⟨"0", "16777217"⟩ 100 = some ⟨"16777216", "16777217"⟩ ∧
      (16777216 : ℕ) ≠ 16777217) ∧
    (parseU32 (rustTrim "4294967295") = some 4294967295 ∧
      deltaF32 4294967295 100 = 4294967295 ∧
      increaseValue 4294967295 4294967295 100 = 4294967294 ∧
      increase ⟨"4294967295", "4294967295"⟩ 100 =
        some ⟨"4294967294", "4294967295"⟩ ∧
      ¬ (4294967295 : ℕ) ≤ 4294967294) := by decide

/-- C3: for `current ∈ [0, max]` and any `amount`, a successful `decrease`
writes a value in `[0, current]`; and whenever `current` is below the
truncated percentage delta, the underflow guard makes the written value
exactly `0`. -/
theorem C3_decrease_range (st st' : KState) (c m a : ℕ)
    (hcm : c ≤ m)
    (hb : parseU32 (rustTrim st.brightness) = some c)
    (hmx : parseU32 (rustTrim st.maxBrightness) = some m)
    (hd : decrease st a = some st') :
    st'.brightness = natToString (decreaseValue c m a) ∧
    decreaseValue c m a ≤ c ∧
    (c < deltaF32 m a → decreaseValue c m a = 0) := by
  obtain ⟨c', m', hb', hm', rfl⟩ := decrease_some hd
  rw [hb] at hb'
  obtain rfl := Option.some.inj hb'
  rw [hmx] at hm'
  obtain rfl := Option.some.inj hm'
  exact ⟨rfl, decreaseValue_le_current c m a, decreaseValue_of_lt c m a⟩

/-- C3 witness: brightness `10`, max `255`, `decrease 50` (delta `127`):
the current value is below the delta and exactly `0` is written. -/
theorem C3_decrease_range_witness :
    (⟨"0", "255"⟩ : KState).brightness = natToString (decreaseValue 10 255 50) ∧
    decreaseValue 10 255 50 ≤ 10 ∧
    (10 < deltaF32 255 50 → decreaseValue 10 255 50 = 0) :=
  C3_decrease_range ⟨"10", "255"⟩ ⟨"0", "255"⟩ 10 255 50
    (by decide) (by decide) (by decide) (by decide)

/-- C4: a successful `set value` writes exactly `max` when `value > max`,
and exactly `value` when `value ≤ max`, where `max` is the value parsed from
the max-brightness file during the call. -/
theorem C4_set_clamp (st st' : KState) (v m : ℕ)
    (hmx : parseU32 (rustTrim st.maxBrightness) = some m)
    (hs : set st v = some st') :
    (m < v → st'.brightness = natToString m) ∧
    (v ≤ m → st'.brightness = natToString v) := by
  obtain ⟨m', hm', rfl⟩ := set_some hs
  rw [hmx] at hm'
  obtain rfl := Option.some.inj hm'
  constructor <;> intro h
  · show natToString (setValue v m) = natToString m
    rw [setValue_of_gt v m h]
  · show natToString (setValue v m) = natToString v
    rw [setValue_of_le v m h]

/-- C4 witness: max `255`, `set 300` stores the text of `255`. -/
theorem C4_set_clamp_witness :
    (⟨"255", "255"⟩ : KState).brightness = natToString 255 :=
  (C4_set_clamp ⟨"100", "255"⟩ ⟨"255", "255"⟩ 300 255
    (by decide) (by decide)).1 (by decide)

/-- C5: round trip — if `set v` succeeds (with `max` parsed from the
max-brightness file during that call) and nothing else touches the state, a
subsequent `get` succeeds on the unchanged state and returns exactly
`min v max`. -/
theorem C5_set_get_roundtrip (st st' : KState) (v m : ℕ)
    (hmx : parseU32 (rustTrim st.maxBrightness) = some m)
    (hs : set st v = some st') :
    get st' = some (st', min v m) := by
  obtain ⟨m', hm', rfl⟩ := set_some hs
  rw [hmx] at hm'
  obtain rfl := Option.some.inj hm'
  have hm32 : m < 2 ^ 32 := parseU32_lt _ m hmx
  have hw32 : setValue v m < 2 ^ 32 := lt_of_le_of_lt (setValue_le v m) hm32
  rw [get, kiReadBrightness]
  show (match parseU32 (rustTrim (natToString (setValue v m))) with
    | none => none
    | some x =>
      some (KState.mk (natToString (setValue v m)) st.maxBrightness, x)) =
    some (KState.mk (natToString (setValue v m)) st.maxBrightness, min v m)
  rw [rustTrim_natToString, parseU32_natToString _ hw32]
  simp only [setValue_eq_min]

/-- C5 witness: `set 300` on max `255` stores `255`; `get` then returns
`min 300 255`. -/
theorem C5_set_get_roundtrip_witness :
    get ⟨"255", "255"⟩ = some (⟨"255", "255"⟩, min 300 255) :=
  C5_set_get_roundtrip ⟨"42", "255"⟩ ⟨"255", "255"⟩ 300 255
    (by decide) (by decide)

/-- C6: if the trimmed content of a kernel file read by an operation fails
to parse as a `u32` (e.g. it is empty or non-numeric), that operation
terminates the process — modelled as the `none` result, which carries no
successor state: the single `ki_write` of each mutating operation comes
after every read and parse, so no write to the brightness file occurs. -/
theorem C6_malformed_terminates (st : KState) (a b v : ℕ) :
    (parseU32 (rustTrim st.brightness) = none →
      increase st a = none ∧ decrease st b = none ∧ get st = none) ∧
    (parseU32 (rustTrim st.maxBrightness) = none →
      increase st a = none ∧ decrease st b = none ∧
      set st v = none ∧ max st = none) := by
  constructor
  · intro h
    refine ⟨?_, ?_, ?_⟩
    · rw [increase, kiReadBrightness, h]
    · rw [decrease, kiReadBrightness, h]
    · rw [get, kiReadBrightness, h]
  · intro h
    refine ⟨?_, ?_, ?_, ?_⟩
    · rw [increase, kiReadBrightness, kiReadMax, h]
      split <;> rfl
    · rw [decrease, kiReadBrightness, kiReadMax, h]
      split <;> rfl
    · rw [set, kiReadMax, h]
    · rw [max, kiReadMax, h]

/-- C6 witness: an empty brightness file makes `increase`, `decrease` and
`get` die without producing a successor state. -/
theorem C6_malformed_terminates_witness :
    increase ⟨"", "255"⟩ 1 = none ∧ decrease ⟨"", "255"⟩ 2 = none ∧
    get ⟨"", "255"⟩ = none :=
  (C6_malformed_terminates ⟨"", "255"⟩ 1 2 0).1 (by decide)

/-- C7: no operation ever writes the max-brightness file — the successor
states of `increase`, `decrease` and `set` keep its content unchanged
(every `ki_write` in the source targets the brightness path), and `max`
returns exactly the parsed content of the max-brightness file. -/
theorem C7_max_file_preserved (st st₁ st₂ st₃ : KState) (a b v : ℕ) :
    (increase st a = some st₁ → st₁.maxBrightness = st.maxBrightness) ∧
    (decrease st b = some st₂ → st₂.maxBrightness = st.maxBrightness) ∧
    (set st v = some st₃ → st₃.maxBrightness = st.maxBrightness) ∧
    (∀ m, parseU32 (rustTrim st.maxBrightness) = some m →
      max st = some (st, m)) := by
  refine ⟨?_, ?_, ?_, ?_⟩
  · intro h
    obtain ⟨c, m, _, _, rfl⟩ := increase_some h
    rfl
  · intro h
    obtain ⟨c, m, _, _, rfl⟩ := decrease_some h
    rfl
  · intro h
    obtain ⟨m, _, rfl⟩ := set_some h
    rfl
  · intro m hm
    rw [max, kiReadMax, hm]

/-- C7 witness: after `increase 10` on brightness `100` / max `255`, the
max-brightness file content is untouched. -/
theorem C7_max_file_preserved_witness :
    (⟨"125", "255"⟩ : KState).maxBrightness =
      (⟨"100", "255"⟩ : KState).maxBrightness :=
  (C7_max_file_preserved ⟨"100", "255"⟩ ⟨"125", "255"⟩ ⟨"100", "255"⟩
    ⟨"100", "255"⟩ 10 0 0).1 (by decide)

/-- C8: concrete scenario — max-brightness file `255`, brightness file
`100`: `increase 10` computes the truncated `f32` delta `25`
(`255 as f32 / 100f32` is `2.54999995…`, times `10` rounds to exactly
`25.5`, truncated to `25`) and writes exactly `125`. -/
theorem C8_scenario :
    parseU32 (rustTrim "100") = some 100 ∧
    parseU32 (rustTrim "255") = some 255 ∧
    deltaF32 255 10 = 25 ∧
    increaseValue 100 255 10 = 125 ∧
    increase ⟨"100", "255"⟩ 10 = some ⟨"125", "255"⟩ := by decide

/-- C9: there are parsed `u32` values `current`, `max` and an `amount` for
which `current + delta` inside `increase` exceeds the `u32` range: at
`current = max = 4294967295`, `amount = 100`, the delta saturates to
`4294967295`, the sum `8589934590` wraps modulo `2^32` to `4294967294`, and
the value computed before (and after) the clamp is the wrapped sum rather
than `min (current + delta) max` over unbounded integers. -/
theorem C9_overflow_wrap :
    parseU32 (rustTrim "4294967295") = some 4294967295 ∧
    deltaF32 4294967295 100 = 4294967295 ∧
    2 ^ 32 ≤ 4294967295 + deltaF32 4294967295 100 ∧
    increaseValue 4294967295 4294967295 100 =
      (4294967295 + deltaF32 4294967295 100) % 2 ^ 32 ∧
    increaseValue 4294967295 4294967295 100 ≠
      min (4294967295 + deltaF32 4294967295 100) 4294967295 ∧
    increase ⟨"4294967295", "4294967295"⟩ 100 =
      some ⟨"4294967294", "4294967295"⟩ := by decide

/-- C10: `get` and `max` are read-only — a successful call returns the state
unchanged, so the contents of both kernel files after the call equal their
contents before it. -/
theorem C10_get_max_readonly (st st₁ st₂ : KState) (x y : ℕ) :
    (get st = some (st₁, x) → st₁ = st ∧ st₁.brightness = st.brightness ∧
      st₁.maxBrightness = st.maxBrightness) ∧
    (max st = some (st₂, y) → st₂ = st ∧ st₂.brightness = st.brightness ∧
      st₂.maxBrightness = st.maxBrightness) := by
  constructor
  · intro h
    obtain ⟨rfl, -⟩ := get_some h
    exact ⟨rfl, rfl, rfl⟩
  · intro h
    obtain ⟨rfl, -⟩ := max_some h
    exact ⟨rfl, rfl, rfl⟩

/-- C10 witness: `get` on brightness `100` / max `255` succeeds and leaves
both file contents as they were. -/
theorem C10_get_max_readonly_witness :
    (⟨"100", "255"⟩ : KState) = ⟨"100", "255"⟩ ∧
    (⟨"100", "255"⟩ : KState).brightness = (⟨"100", "255"⟩ : KState).brightness ∧
    (⟨"100", "255"⟩ : KState).maxBrightness =
      (⟨"100", "255"⟩ : KState).maxBrightness :=
  (C10_get_max_readonly ⟨"100", "255"⟩ ⟨"100", "255"⟩ ⟨"100", "255"⟩
    100 255).1 (by decide)

end Blctl
